import Mathlib

/-
Verification development for the 3x3 double-precision 2-D convolution kernel
fconv2d_3x3 (file src/apps/fconv2d/fconv2d_3x3.c).

Modelling choices
=================

Scalars.  The kernel computes with IEEE-754 doubles through exactly two
arithmetic instructions: vfmul.vf (elementwise multiply of a vector by a
scalar) and vfmacc.vf (elementwise fused multiply-accumulate of a scalar
times a vector into an accumulator).  We embed the scalars as an arbitrary
type with an abstract multiply and an abstract multiply-accumulate
operation, bundled in FPOps.  Every theorem quantifies over all
interpretations, so in particular it holds for the IEEE binary64
interpretation: two expressions proved equal here are built from the same
primitive operations applied in the same order to the same data, hence are
bit-for-bit equal on the machine.  IEEE multiplication and the product
inside an FMA are commutative in their two factors (the result does not
depend on the operand order), so the operand order of fmul/fmacc carries
the scalar (filter) operand first throughout.

Vector registers.  A vector register holds C + F - 1 = C + 2 doubles during
this kernel (the vsetvli instructions switch the active length between
C + F - 1 for the loads/moves/early accumulation and C for the late
accumulation and the stores).  We model a register as a function from the
lane index to a scalar.  Only lanes below C are ever stored, and a stored
lane c consumes source lanes at most c + 2 <= C + 1 of the loaded rows, so
the pointwise model (which applies every operation on every lane) agrees
with the machine on every observable value; the vsetvli switches therefore
need no explicit counterpart.

Memory.  The input matrix and the filter are read-only views, modelled as
functions from element offsets (the C code's pointer arithmetic is in
units of 8-byte doubles; all strides ldi/ldf/ldo are built with << 3 and
we count in elements).  The caller guarantees the buffers are not aliased
(spec section 6), so reads are taken from the immutable views.  Writes are
recorded as an ordered trace of (offset, value) pairs into the output
buffer; the read footprints of the vector loads and of the scalar filter
loads are recorded as address lists alongside.
-/

/-- Abstract interpretation of the two floating-point instructions used by
the kernel: fmul t x models the product t * x (vfmul.vf), and
fmacc t x a models the fused multiply-add a + t * x (vfmacc.vf). -/
structure FPOps (A : Type) where
  fmul : A → A → A
  fmacc : A → A → A → A

/-- Vector load vle64.v: reading w consecutive elements starting at offset
base yields the register contents (as a lane function) and the list of
element offsets read.  All loads in this kernel execute with vector length
w = C + F - 1. -/
def vle64 {A : Type} (input : ℕ → A) (base w : ℕ) : (ℕ → A) × List ℕ :=
  (fun j => input (base + j), List.range' base w)

/-- Vector store vse64.v: storing the first w lanes of register v at output
offset base yields the ordered list of (offset, value) store events.  All
stores in this kernel execute with vector length w = C. -/
def vse64 {A : Type} (base : ℕ) (v : ℕ → A) (w : ℕ) : List (ℕ × A) :=
  (List.range w).map (fun j => (base + j, v j))

/-- Vector slide vslidedown.vi: lane j of the result is lane j + n of the
source register.  This is an in-register permutation, not a memory access. -/
def vslide {A : Type} (n : ℕ) (v : ℕ → A) : ℕ → A :=
  fun j => v (j + n)

/-- Elementwise vfmul.vf: multiply every lane of v by the scalar t. -/
def vfmul {A : Type} (ops : FPOps A) (t : A) (v : ℕ → A) : ℕ → A :=
  fun j => ops.fmul t (v j)

/-- Elementwise vfmacc.vf: accumulate t times every lane of vs into the
corresponding lane of the accumulator vd. -/
def vfmacc {A : Type} (ops : FPOps A) (t : A) (vs vd : ℕ → A) : ℕ → A :=
  fun j => ops.fmacc t (vs j) (vd j)

/-- Contents of the vector register file threaded through the kernel: the
six row registers v8, v10, v12, v14, v16, v18 that hold the sliding input
row window (the accumulators v0..v6 and the slide temporaries v20..v30 are
dead across block boundaries and are not part of the persistent state). -/
structure RegState (A : Type) where
  v8 : ℕ → A
  v10 : ℕ → A
  v12 : ℕ → A
  v14 : ℕ → A
  v16 : ℕ → A
  v18 : ℕ → A

/-- Result of one 4-row block computation: the ordered store trace, the
input-element offsets read by the four vector loads, the filter-element
offsets read by the scalar fld instructions, and the register file at the
end of the block. -/
structure BlockOut (A : Type) where
  stores : List (ℕ × A)
  iReads : List ℕ
  fReads : List ℕ
  state : RegState A

/-- Result of the preload helper: registers v8 and v10 and the offsets read. -/
structure PreloadOut (A : Type) where
  v8 : ℕ → A
  v10 : ℕ → A
  iReads : List ℕ

/-- Observable behaviour of a whole kernel invocation: store trace and the
two read footprints. -/
structure KernelOut (A : Type) where
  stores : List (ℕ × A)
  iReads : List ℕ
  fReads : List ℕ

/-- Embedding of fconv2d_vec_4xC_slice_preload_3x3 (source lines 235-244):
load the first two input rows (C + F - 1 elements each, row stride
ldi = C + F - 1) into v8 and v10. -/
def fconv2d_vec_4xC_slice_preload_3x3 {A : Type} (input : ℕ → A)
    (ibase C F : ℕ) : PreloadOut A :=
  let l8 := vle64 input ibase (C + F - 1)
  let l10 := vle64 input (ibase + (C + F - 1)) (C + F - 1)
  { v8 := l8.1, v10 := l10.1, iReads := l8.2 ++ l10.2 }

/-- Embedding of fconv2d_vec_4xC_slice_move_3x3 (source lines 395-401):
vmv.v.v v8, v16 and vmv.v.v v10, v18 promote the last two window rows into
the first two slots. -/
def fconv2d_vec_4xC_slice_move_3x3 {A : Type} (st : RegState A) : RegState A :=
  { st with v8 := st.v16, v10 := st.v18 }

/-- Embedding of fconv2d_vec_4xC_3x3 (source lines 247-393): compute one
4-row output block.  ob is the output offset of the block (pointer o), ib
the input offset of the third window row (pointer i, which on entry points
F - 1 rows past the window start).  v8 and v10 hold the first two window
rows.  Each let binding transcribes one instruction of the source, in
source order; filter coefficients are read at offsets 0, F, 2F (first
column, pointer f advanced by ldf = F elements), then 1, 1+F, 1+2F, then
2, 2+F, 2+2F. -/
def fconv2d_vec_4xC_3x3 {A : Type} (ops : FPOps A) (input filt : ℕ → A)
    (ob ib C F : ℕ) (v8 v10 : ℕ → A) : BlockOut A :=
  let t0 := filt 0
  let t1 := filt F
  let t2 := filt (2*F)
  let l12 := vle64 input ib (C + F - 1)
  let v12 := l12.1
  let v0 := vfmul ops t0 v8
  let v2 := vfmul ops t0 v10
  let l14 := vle64 input (ib + (C + F - 1)) (C + F - 1)
  let v14 := l14.1
  let v0 := vfmacc ops t1 v10 v0
  let v2 := vfmacc ops t1 v12 v2
  let l16 := vle64 input (ib + 2*(C + F - 1)) (C + F - 1)
  let v16 := l16.1
  let v0 := vfmacc ops t2 v12 v0
  let v20 := vslide 1 v8
  let v4 := vfmul ops t0 v12
  let l18 := vle64 input (ib + 3*(C + F - 1)) (C + F - 1)
  let v18 := l18.1
  let v6 := vfmul ops t0 v14
  let v4 := vfmacc ops t1 v14 v4
  let v22 := vslide 1 v10
  let v2 := vfmacc ops t2 v14 v2
  let v6 := vfmacc ops t1 v16 v6
  let v4 := vfmacc ops t2 v16 v4
  let v24 := vslide 1 v12
  let v6 := vfmacc ops t2 v18 v6
  let t0 := filt 1
  let t1 := filt (1 + F)
  let t2 := filt (1 + 2*F)
  let v0 := vfmacc ops t0 v20 v0
  let v0 := vfmacc ops t1 v22 v0
  let v26 := vslide 1 v14
  let v2 := vfmacc ops t0 v22 v2
  let v0 := vfmacc ops t2 v24 v0
  let v2 := vfmacc ops t1 v24 v2
  let v28 := vslide 1 v16
  let v4 := vfmacc ops t0 v24 v4
  let v2 := vfmacc ops t2 v26 v2
  let v4 := vfmacc ops t1 v26 v4
  let v30 := vslide 1 v18
  let v6 := vfmacc ops t0 v26 v6
  let v4 := vfmacc ops t2 v28 v4
  let v20 := vslide 2 v8
  let v6 := vfmacc ops t1 v28 v6
  let v6 := vfmacc ops t2 v30 v6
  let v22 := vslide 2 v10
  let t0 := filt 2
  let t1 := filt (2 + F)
  let t2 := filt (2 + 2*F)
  let v0 := vfmacc ops t0 v20 v0
  let v0 := vfmacc ops t1 v22 v0
  let v24 := vslide 2 v12
  let v2 := vfmacc ops t0 v22 v2
  let v0 := vfmacc ops t2 v24 v0
  let s0 := vse64 ob v0 C
  let v26 := vslide 2 v14
  let v2 := vfmacc ops t1 v24 v2
  let v4 := vfmacc ops t0 v24 v4
  let v2 := vfmacc ops t2 v26 v2
  let s1 := vse64 (ob + C) v2 C
  let v28 := vslide 2 v16
  let v4 := vfmacc ops t1 v26 v4
  let v6 := vfmacc ops t0 v26 v6
  let v4 := vfmacc ops t2 v28 v4
  let v30 := vslide 2 v18
  let s2 := vse64 (ob + 2*C) v4 C
  let v6 := vfmacc ops t1 v28 v6
  let v6 := vfmacc ops t2 v30 v6
  let s3 := vse64 (ob + 3*C) v6 C
  { stores := s0 ++ s1 ++ s2 ++ s3
    iReads := l12.2 ++ l14.2 ++ l16.2 ++ l18.2
    fReads := [0, F, 2*F, 1, 1 + F, 1 + 2*F, 2, 2 + F, 2 + 2*F]
    state := { v8 := v8, v10 := v10, v12 := v12, v14 := v14, v16 := v16, v18 := v18 } }

/-- Embedding of the inlined steady-state loop body of fconv2d_3x3 (source
lines 85-230).  r is the loop counter (the first output row of the block),
ib the value of pointer i at loop entry (the third window row of this
block).  t0, t1, t2 are the first-column filter coefficients loaded once
before the loop (source lines 63-69) and reused by every iteration; the
body itself reads only filter offsets 1, 1+F, 1+2F, 2, 2+F, 2+2F.  The
body first promotes v16, v18 into v8, v10 (vmv.v.v, lines 114 and 124),
streams the four new rows into v12..v18, and stores the block at output
offset r*C (o_ = o + r*C, line 207, advancing by ldo = C per row). -/
def fconv2d_3x3_loop_body {A : Type} (ops : FPOps A) (input filt : ℕ → A)
    (C F r ib : ℕ) (t0 t1 t2 : A) (st : RegState A) : BlockOut A :=
  let v8 := st.v16
  let l12 := vle64 input ib (C + F - 1)
  let v12 := l12.1
  let v0 := vfmul ops t0 v8
  let v10 := st.v18
  let v2 := vfmul ops t0 v10
  let l14 := vle64 input (ib + (C + F - 1)) (C + F - 1)
  let v14 := l14.1
  let v0 := vfmacc ops t1 v10 v0
  let v2 := vfmacc ops t1 v12 v2
  let l16 := vle64 input (ib + 2*(C + F - 1)) (C + F - 1)
  let v16 := l16.1
  let v0 := vfmacc ops t2 v12 v0
  let v20 := vslide 1 v8
  let v4 := vfmul ops t0 v12
  let l18 := vle64 input (ib + 3*(C + F - 1)) (C + F - 1)
  let v18 := l18.1
  let v6 := vfmul ops t0 v14
  let v22 := vslide 1 v10
  let v4 := vfmacc ops t1 v14 v4
  let v2 := vfmacc ops t2 v14 v2
  let v24 := vslide 1 v12
  let v6 := vfmacc ops t1 v16 v6
  let v4 := vfmacc ops t2 v16 v4
  let v26 := vslide 1 v14
  let v6 := vfmacc ops t2 v18 v6
  let t3 := filt 1
  let t4 := filt (1 + F)
  let t5 := filt (1 + 2*F)
  let v0 := vfmacc ops t3 v20 v0
  let v0 := vfmacc ops t4 v22 v0
  let v28 := vslide 1 v16
  let v2 := vfmacc ops t3 v22 v2
  let v0 := vfmacc ops t5 v24 v0
  let v30 := vslide 1 v18
  let v2 := vfmacc ops t4 v24 v2
  let v4 := vfmacc ops t3 v24 v4
  let v20 := vslide 2 v8
  let v2 := vfmacc ops t5 v26 v2
  let v4 := vfmacc ops t4 v26 v4
  let v22 := vslide 2 v10
  let v6 := vfmacc ops t3 v26 v6
  let v4 := vfmacc ops t5 v28 v4
  let t3 := filt 2
  let v6 := vfmacc ops t4 v28 v6
  let v24 := vslide 2 v12
  let v6 := vfmacc ops t5 v30 v6
  let v0 := vfmacc ops t3 v20 v0
  let v26 := vslide 2 v14
  let t4 := filt (2 + F)
  let t5 := filt (2 + 2*F)
  let v0 := vfmacc ops t4 v22 v0
  let v2 := vfmacc ops t3 v22 v2
  let v28 := vslide 2 v16
  let v0 := vfmacc ops t5 v24 v0
  let v2 := vfmacc ops t4 v24 v2
  let v30 := vslide 2 v18
  let s0 := vse64 (r*C) v0 C
  let v4 := vfmacc ops t3 v24 v4
  let v2 := vfmacc ops t5 v26 v2
  let s1 := vse64 (r*C + C) v2 C
  let v4 := vfmacc ops t4 v26 v4
  let v6 := vfmacc ops t3 v26 v6
  let v4 := vfmacc ops t5 v28 v4
  let s2 := vse64 (r*C + 2*C) v4 C
  let v6 := vfmacc ops t4 v28 v6
  let v6 := vfmacc ops t5 v30 v6
  let s3 := vse64 (r*C + 3*C) v6 C
  { stores := s0 ++ s1 ++ s2 ++ s3
    iReads := l12.2 ++ l14.2 ++ l16.2 ++ l18.2
    fReads := [1, 1 + F, 1 + 2*F, 2, 2 + F, 2 + 2*F]
    state := { v8 := v8, v10 := v10, v12 := v12, v14 := v14, v16 := v16, v18 := v18 } }

/-- Embedding of the driver loop of fconv2d_3x3 (source line 77:
for r = block_size_o; r < R; r += block_size_o).  ib is the current value
of pointer i; after each iteration the source recomputes
i_ = i + (r + 4)*(C + F - 1) and i = i_ + (F - 1)*(C + F - 1)
(lines 175 and 186). -/
def fconv2d_3x3_loop {A : Type} (ops : FPOps A) (input filt : ℕ → A)
    (C F R r ib : ℕ) (t0 t1 t2 : A) (st : RegState A) : KernelOut A :=
  if r < R then
    let b := fconv2d_3x3_loop_body ops input filt C F r ib t0 t1 t2 st
    let rest := fconv2d_3x3_loop ops input filt C F R (r + 4)
      ((r + 4)*(C + F - 1) + (F - 1)*(C + F - 1)) t0 t1 t2 b.state
    { stores := b.stores ++ rest.stores
      iReads := b.iReads ++ rest.iReads
      fReads := b.fReads ++ rest.fReads }
  else
    { stores := [], iReads := [], fReads := [] }
  termination_by R - r
  decreasing_by omega

/-- Number of iterations executed by the driver loop of fconv2d_3x3 when
entered with row counter r and bound R (step block_size_o = 4). -/
def fconv2d_3x3_loop_iters (R r : ℕ) : ℕ :=
  if r < R then fconv2d_3x3_loop_iters R (r + 4) + 1 else 0
  termination_by R - r
  decreasing_by omega

/-- Embedding of fconv2d_3x3 (source lines 33-232): preload rows 0 and 1,
compute block 0 through fconv2d_vec_4xC_3x3 at input offset
(F-1)*(C+F-1) and output offset 0, promote the window rows through
fconv2d_vec_4xC_slice_move_3x3, load the first-column filter coefficients
t0, t1, t2 once (offsets 0, F, 2F), and run the steady-state loop from
r = block_size_o = 4 with i = 4*(C+F-1) + (F-1)*(C+F-1) (lines 52-53).
No register is read before the preload and the block-0 loads write it, so
the initial register file does not appear. -/
def fconv2d_3x3 {A : Type} (ops : FPOps A) (input filt : ℕ → A)
    (R C F : ℕ) : KernelOut A :=
  let pre := fconv2d_vec_4xC_slice_preload_3x3 input 0 C F
  let b0 := fconv2d_vec_4xC_3x3 ops input filt 0 ((F - 1)*(C + F - 1)) C F pre.v8 pre.v10
  let st1 := fconv2d_vec_4xC_slice_move_3x3 b0.state
  let t0 := filt 0
  let t1 := filt F
  let t2 := filt (2*F)
  let rest := fconv2d_3x3_loop ops input filt C F R 4
    (4*(C + F - 1) + (F - 1)*(C + F - 1)) t0 t1 t2 st1
  { stores := b0.stores ++ rest.stores
    iReads := pre.iReads ++ b0.iReads ++ rest.iReads
    fReads := b0.fReads ++ [0, F, 2*F] ++ rest.fReads }

/-- Reference convolution from the specification (section 8, Reference
equivalence): output[r][c] is the sum over i, j of filter[i][j] times
input[r+i][c+j], with the filter stored row-major (filter[i][j] at offset
3i + j), the padded input stored row-major with row stride C + F - 1 =
C + 2, and the accumulation performed in filter-column-major order (j
outer, i inner), the accumulator initialized implicitly by the first
multiply (section 4.2 step 1).  Each accumulation step is realized by the
machine's multiply-accumulate primitive, as required for the mandated
bit-for-bit comparison against a reference that uses the same accumulation
order (section 8). -/
def refConv3 {A : Type} (ops : FPOps A) (filt input : ℕ → A) (C r c : ℕ) : A :=
  let a := ops.fmul (filt 0) (input (r*(C+2) + c))
  let a := ops.fmacc (filt 3) (input ((r+1)*(C+2) + c)) a
  let a := ops.fmacc (filt 6) (input ((r+2)*(C+2) + c)) a
  let a := ops.fmacc (filt 1) (input (r*(C+2) + (c+1))) a
  let a := ops.fmacc (filt 4) (input ((r+1)*(C+2) + (c+1))) a
  let a := ops.fmacc (filt 7) (input ((r+2)*(C+2) + (c+1))) a
  let a := ops.fmacc (filt 2) (input (r*(C+2) + (c+2))) a
  let a := ops.fmacc (filt 5) (input ((r+1)*(C+2) + (c+2))) a
  ops.fmacc (filt 8) (input ((r+2)*(C+2) + (c+2))) a

/-- Row k of the padded input matrix, as a lane function (row stride
C + F - 1 = C + 2 for F = 3). -/
def inrow {A : Type} (input : ℕ → A) (C k : ℕ) : ℕ → A :=
  fun j => input (k*(C+2) + j)

/-- Lane c of a finished output-row accumulator, as a function of the three
window rows r0, r1, r2 feeding this output row: the normal form of the
kernel's accumulation sequence for one output row (first filter column with
the preloaded coefficients t0, t1, t2, then columns 1 and 2 read at filter
offsets 1, 4, 7 and 2, 5, 8 for F = 3). -/
def outRowW {A : Type} (ops : FPOps A) (t0 t1 t2 : A) (filt : ℕ → A)
    (r0 r1 r2 : ℕ → A) (c : ℕ) : A :=
  ops.fmacc (filt 8) (r2 (c+2)) (ops.fmacc (filt 5) (r1 (c+2)) (ops.fmacc (filt 2) (r0 (c+2))
    (ops.fmacc (filt 7) (r2 (c+1)) (ops.fmacc (filt 4) (r1 (c+1)) (ops.fmacc (filt 1) (r0 (c+1))
      (ops.fmacc t2 (r2 c) (ops.fmacc t1 (r1 c) (ops.fmul t0 (r0 c)))))))))

/-- Store trace of one 4-row output block: four contiguous C-element rows
at output offsets ob, ob + C, ob + 2C, ob + 3C, in that order. -/
def blockStores {A : Type} (C ob : ℕ) (w0 w1 w2 w3 : ℕ → A) : List (ℕ × A) :=
  vse64 ob w0 C ++ vse64 (ob + C) w1 C ++ vse64 (ob + 2*C) w2 C ++ vse64 (ob + 3*C) w3 C

/-- Store trace the kernel is expected to produce for output-row block k:
output rows 4k .. 4k+3, fed by input rows 4k .. 4k+5. -/
def blockOf {A : Type} (ops : FPOps A) (input filt : ℕ → A) (C k : ℕ) : List (ℕ × A) :=
  blockStores C (4*k*C)
    (outRowW ops (filt 0) (filt 3) (filt 6) filt
      (inrow input C (4*k)) (inrow input C (4*k+1)) (inrow input C (4*k+2)))
    (outRowW ops (filt 0) (filt 3) (filt 6) filt
      (inrow input C (4*k+1)) (inrow input C (4*k+2)) (inrow input C (4*k+3)))
    (outRowW ops (filt 0) (filt 3) (filt 6) filt
      (inrow input C (4*k+2)) (inrow input C (4*k+3)) (inrow input C (4*k+4)))
    (outRowW ops (filt 0) (filt 3) (filt 6) filt
      (inrow input C (4*k+3)) (inrow input C (4*k+4)) (inrow input C (4*k+5)))

/-- Register file at the end of output-row block k, for F = 3: block 0 is
computed by fconv2d_vec_4xC_3x3 on the preloaded v8, v10 (driver lines
44-48), every later block by the steady-state loop body at row counter
r = 4k and input offset r*(C+F-1) + (F-1)*(C+F-1), with the first-column
filter coefficients loaded once at offsets 0, F, 2F (driver lines 63-69). -/
def fconv2d_3x3_stateAfterBlock {A : Type} (ops : FPOps A) (input filt : ℕ → A)
    (C : ℕ) : ℕ → RegState A
  | 0 =>
    let pre := fconv2d_vec_4xC_slice_preload_3x3 input 0 C 3
    (fconv2d_vec_4xC_3x3 ops input filt 0 (2*(C + 2)) C 3 pre.v8 pre.v10).state
  | k + 1 =>
    (fconv2d_3x3_loop_body ops input filt C 3 (4*(k+1))
      ((4*(k+1))*(C + 2) + 2*(C + 2)) (filt 0) (filt 3) (filt (2*3))
      (fconv2d_3x3_stateAfterBlock ops input filt C k)).state

/-- Applying an ordered list of (offset, value) store events to a memory. -/
def writeList {A : Type} (m : ℕ → A) (l : List (ℕ × A)) : ℕ → A :=
  l.foldl (fun acc p => fun a => if a = p.1 then p.2 else acc a) m

/-- Store trace of the block helper, per output row: the four accumulators
reach the normal form outRowW over the window rows v8, v10 and the four
rows loaded at ib, ib + (C+2), ib + 2(C+2), ib + 3(C+2). -/
lemma fconv2d_vec_4xC_3x3_stores_eq {A : Type} (ops : FPOps A)
    (input filt : ℕ → A) (ob ib C : ℕ) (v8 v10 : ℕ → A) :
    (fconv2d_vec_4xC_3x3 ops input filt ob ib C 3 v8 v10).stores =
      blockStores C ob
        (outRowW ops (filt 0) (filt 3) (filt 6) filt v8 v10
          (fun j => input (ib + j)))
        (outRowW ops (filt 0) (filt 3) (filt 6) filt v10
          (fun j => input (ib + j)) (fun j => input (ib + (C+2) + j)))
        (outRowW ops (filt 0) (filt 3) (filt 6) filt
          (fun j => input (ib + j)) (fun j => input (ib + (C+2) + j))
          (fun j => input (ib + 2*(C+2) + j)))
        (outRowW ops (filt 0) (filt 3) (filt 6) filt
          (fun j => input (ib + (C+2) + j)) (fun j => input (ib + 2*(C+2) + j))
          (fun j => input (ib + 3*(C+2) + j))) := rfl

/-- Register file at the end of the block helper. -/
lemma fconv2d_vec_4xC_3x3_state_eq {A : Type} (ops : FPOps A)
    (input filt : ℕ → A) (ob ib C : ℕ) (v8 v10 : ℕ → A) :
    (fconv2d_vec_4xC_3x3 ops input filt ob ib C 3 v8 v10).state =
      { v8 := v8, v10 := v10
        v12 := fun j => input (ib + j)
        v14 := fun j => input (ib + (C+2) + j)
        v16 := fun j => input (ib + 2*(C+2) + j)
        v18 := fun j => input (ib + 3*(C+2) + j) } := rfl

/-- Store trace of the steady-state loop body, per output row. -/
lemma fconv2d_3x3_loop_body_stores_eq {A : Type} (ops : FPOps A)
    (input filt : ℕ → A) (C r ib : ℕ) (t0 t1 t2 : A) (st : RegState A) :
    (fconv2d_3x3_loop_body ops input filt C 3 r ib t0 t1 t2 st).stores =
      blockStores C (r*C)
        (outRowW ops t0 t1 t2 filt st.v16 st.v18
          (fun j => input (ib + j)))
        (outRowW ops t0 t1 t2 filt st.v18
          (fun j => input (ib + j)) (fun j => input (ib + (C+2) + j)))
        (outRowW ops t0 t1 t2 filt
          (fun j => input (ib + j)) (fun j => input (ib + (C+2) + j))
          (fun j => input (ib + 2*(C+2) + j)))
        (outRowW ops t0 t1 t2 filt
          (fun j => input (ib + (C+2) + j)) (fun j => input (ib + 2*(C+2) + j))
          (fun j => input (ib + 3*(C+2) + j))) := rfl

/-- Register file at the end of the steady-state loop body. -/
lemma fconv2d_3x3_loop_body_state_eq {A : Type} (ops : FPOps A)
    (input filt : ℕ → A) (C r ib : ℕ) (t0 t1 t2 : A) (st : RegState A) :
    (fconv2d_3x3_loop_body ops input filt C 3 r ib t0 t1 t2 st).state =
      { v8 := st.v16, v10 := st.v18
        v12 := fun j => input (ib + j)
        v14 := fun j => input (ib + (C+2) + j)
        v16 := fun j => input (ib + 2*(C+2) + j)
        v18 := fun j => input (ib + 3*(C+2) + j) } := rfl

/-- Input read footprint of the block helper: the four loaded rows. -/
lemma fconv2d_vec_4xC_3x3_iReads_eq {A : Type} (ops : FPOps A)
    (input filt : ℕ → A) (ob ib C : ℕ) (v8 v10 : ℕ → A) :
    (fconv2d_vec_4xC_3x3 ops input filt ob ib C 3 v8 v10).iReads =
      List.range' ib (C+2) ++ List.range' (ib + (C+2)) (C+2) ++
      List.range' (ib + 2*(C+2)) (C+2) ++ List.range' (ib + 3*(C+2)) (C+2) := rfl

/-- Input read footprint of the steady-state loop body. -/
lemma fconv2d_3x3_loop_body_iReads_eq {A : Type} (ops : FPOps A)
    (input filt : ℕ → A) (C r ib : ℕ) (t0 t1 t2 : A) (st : RegState A) :
    (fconv2d_3x3_loop_body ops input filt C 3 r ib t0 t1 t2 st).iReads =
      List.range' ib (C+2) ++ List.range' (ib + (C+2)) (C+2) ++
      List.range' (ib + 2*(C+2)) (C+2) ++ List.range' (ib + 3*(C+2)) (C+2) := rfl

/-- Input read footprint of one block: four rows of C + 2 elements at ib,
ib + (C+2), ib + 2(C+2), ib + 3(C+2). -/
def blockReads (C ib : ℕ) : List ℕ :=
  List.range' ib (C+2) ++ List.range' (ib + (C+2)) (C+2) ++
  List.range' (ib + 2*(C+2)) (C+2) ++ List.range' (ib + 3*(C+2)) (C+2)

/-- Rewriting a loaded row to the input row it holds. -/
lemma row_shift {A : Type} (input : ℕ → A) (C b k : ℕ) (h : b = k*(C+2)) :
    (fun j => input (b + j)) = inrow input C k := by
  funext j
  simp [inrow, h]

/-- Claim C3: the helper fconv2d_vec_4xC_3x3 used for the first output-row
block and the inlined body of the steady-state loop in fconv2d_3x3 compute
identical accumulation values: started on the same window rows (the loop
body takes its first two window rows from v16, v18, which the helper
receives in v8, v10) with the same filter, and with the loop body reusing
the first-column coefficients t0, t1, t2 = filt 0, filt F, filt 2F loaded
once before the loop, both produce the same four stored output rows, the
same store order, the same loaded rows, and the same final register file. -/
theorem fconv2d_3x3_loop_body_eq_vec_4xC {A : Type} (ops : FPOps A)
    (input filt : ℕ → A) (C F r ib : ℕ) (st : RegState A) :
    (fconv2d_3x3_loop_body ops input filt C F r ib
        (filt 0) (filt F) (filt (2*F)) st).stores =
      (fconv2d_vec_4xC_3x3 ops input filt (r*C) ib C F st.v16 st.v18).stores ∧
    (fconv2d_3x3_loop_body ops input filt C F r ib
        (filt 0) (filt F) (filt (2*F)) st).iReads =
      (fconv2d_vec_4xC_3x3 ops input filt (r*C) ib C F st.v16 st.v18).iReads ∧
    (fconv2d_3x3_loop_body ops input filt C F r ib
        (filt 0) (filt F) (filt (2*F)) st).state =
      (fconv2d_vec_4xC_3x3 ops input filt (r*C) ib C F st.v16 st.v18).state :=
  ⟨rfl, rfl, rfl⟩

/-- Concatenating two adjacent ranges. -/
lemma range'_add_append (a m n : ℕ) :
    List.range' a m ++ List.range' (a + m) n = List.range' a (m + n) := by
  simp [Nat.add_comm]

/-- Unfolding the steady-state loop when the guard holds. -/
lemma fconv2d_3x3_loop_unfold_pos {A : Type} (ops : FPOps A)
    (input filt : ℕ → A) (C F R r ib : ℕ) (t0 t1 t2 : A) (st : RegState A)
    (h : r < R) :
    fconv2d_3x3_loop ops input filt C F R r ib t0 t1 t2 st =
      { stores := (fconv2d_3x3_loop_body ops input filt C F r ib t0 t1 t2 st).stores ++
          (fconv2d_3x3_loop ops input filt C F R (r + 4)
            ((r + 4)*(C + F - 1) + (F - 1)*(C + F - 1)) t0 t1 t2
            (fconv2d_3x3_loop_body ops input filt C F r ib t0 t1 t2 st).state).stores
        iReads := (fconv2d_3x3_loop_body ops input filt C F r ib t0 t1 t2 st).iReads ++
          (fconv2d_3x3_loop ops input filt C F R (r + 4)
            ((r + 4)*(C + F - 1) + (F - 1)*(C + F - 1)) t0 t1 t2
            (fconv2d_3x3_loop_body ops input filt C F r ib t0 t1 t2 st).state).iReads
        fReads := (fconv2d_3x3_loop_body ops input filt C F r ib t0 t1 t2 st).fReads ++
          (fconv2d_3x3_loop ops input filt C F R (r + 4)
            ((r + 4)*(C + F - 1) + (F - 1)*(C + F - 1)) t0 t1 t2
            (fconv2d_3x3_loop_body ops input filt C F r ib t0 t1 t2 st).state).fReads } := by
  rw [fconv2d_3x3_loop, if_pos h]

/-- Unfolding the steady-state loop when the guard fails. -/
lemma fconv2d_3x3_loop_unfold_neg {A : Type} (ops : FPOps A)
    (input filt : ℕ → A) (C F R r ib : ℕ) (t0 t1 t2 : A) (st : RegState A)
    (h : ¬ r < R) :
    fconv2d_3x3_loop ops input filt C F R r ib t0 t1 t2 st =
      { stores := [], iReads := [], fReads := [] } := by
  rw [fconv2d_3x3_loop, if_neg h]

/-- Store trace of the steady-state loop entered for block k with
R = 4(k + m) rows remaining: one blockOf per remaining block, in block
order.  The register file hypothesis states that v16, v18 hold input rows
4k and 4k + 1 at loop entry, and ib points to input row 4k + 2. -/
lemma fconv2d_3x3_loop_stores_char {A : Type} (ops : FPOps A)
    (input filt : ℕ → A) (C : ℕ) :
    ∀ (m k R ib : ℕ) (st : RegState A),
      R = 4*(k + m) →
      ib = (4*k)*(C+2) + 2*(C+2) →
      st.v16 = inrow input C (4*k) →
      st.v18 = inrow input C (4*k + 1) →
      (fconv2d_3x3_loop ops input filt C 3 R (4*k) ib
          (filt 0) (filt 3) (filt 6) st).stores =
        ((List.range m).map (fun j => blockOf ops input filt C (k + j))).flatten := by
  intro m
  induction m with
  | zero =>
    intro k R ib st hR hib h16 h18
    rw [fconv2d_3x3_loop_unfold_neg _ _ _ _ _ _ _ _ _ _ _ _ (by omega)]
    simp
  | succ m IH =>
    intro k R ib st hR hib h16 h18
    rw [fconv2d_3x3_loop_unfold_pos _ _ _ _ _ _ _ _ _ _ _ _ (by omega)]
    have hrow2 : (fun j => input (ib + j)) = inrow input C (4*k + 2) :=
      row_shift input C ib (4*k + 2) (by rw [hib]; ring)
    have hrow3 : (fun j => input (ib + (C+2) + j)) = inrow input C (4*k + 3) :=
      row_shift input C (ib + (C+2)) (4*k + 3) (by rw [hib]; ring)
    have hrow4 : (fun j => input (ib + 2*(C+2) + j)) = inrow input C (4*k + 4) :=
      row_shift input C (ib + 2*(C+2)) (4*k + 4) (by rw [hib]; ring)
    have hrow5 : (fun j => input (ib + 3*(C+2) + j)) = inrow input C (4*k + 5) :=
      row_shift input C (ib + 3*(C+2)) (4*k + 5) (by rw [hib]; ring)
    have h16p : (fconv2d_3x3_loop_body ops input filt C 3 (4*k) ib
        (filt 0) (filt 3) (filt 6) st).state.v16 = inrow input C (4*(k+1)) := by
      rw [fconv2d_3x3_loop_body_state_eq]
      exact hrow4
    have h18p : (fconv2d_3x3_loop_body ops input filt C 3 (4*k) ib
        (filt 0) (filt 3) (filt 6) st).state.v18 = inrow input C (4*(k+1) + 1) := by
      rw [fconv2d_3x3_loop_body_state_eq]
      exact hrow5
    have e1 : 4*k + 4 = 4*(k+1) := by ring
    have e2 : (4*k + 4)*(C + 3 - 1) + (3 - 1)*(C + 3 - 1) =
        (4*(k+1))*(C+2) + 2*(C+2) := rfl
    rw [e2, e1]
    have hrest := IH (k+1) R ((4*(k+1))*(C+2) + 2*(C+2))
      (fconv2d_3x3_loop_body ops input filt C 3 (4*k) ib
        (filt 0) (filt 3) (filt 6) st).state
      (by omega) rfl h16p h18p
    rw [hrest]
    rw [fconv2d_3x3_loop_body_stores_eq, h16, h18, hrow2, hrow3, hrow4, hrow5]
    rw [List.range_succ_eq_map, List.map_cons, List.flatten_cons, List.map_map]
    have hfun : ((fun j => blockOf ops input filt C (k + j)) ∘ Nat.succ) =
        fun j => blockOf ops input filt C (k + 1 + j) := by
      funext j
      show blockOf ops input filt C (k + Nat.succ j) = _
      congr 1
      omega
    rw [hfun]
    congr 1

/-- Promotion keeps v16 unchanged. -/
lemma slice_move_v16 {A : Type} (st : RegState A) :
    (fconv2d_vec_4xC_slice_move_3x3 st).v16 = st.v16 := rfl

/-- Promotion keeps v18 unchanged. -/
lemma slice_move_v18 {A : Type} (st : RegState A) :
    (fconv2d_vec_4xC_slice_move_3x3 st).v18 = st.v18 := rfl

/-- Store trace of a full kernel invocation with R = 4n output rows: the n
blocks in row order, block k holding output rows 4k .. 4k+3 computed from
input rows 4k .. 4k+5. -/
theorem fconv2d_3x3_stores_char {A : Type} (ops : FPOps A)
    (input filt : ℕ → A) (C R n : ℕ) (hR : R = 4*n) (hn : 1 ≤ n) :
    (fconv2d_3x3 ops input filt R C 3).stores =
      ((List.range n).map (fun k => blockOf ops input filt C k)).flatten := by
  obtain ⟨m, rfl⟩ : ∃ m, n = m + 1 := ⟨n - 1, by omega⟩
  have hsplit : (fconv2d_3x3 ops input filt R C 3).stores =
      (fconv2d_vec_4xC_3x3 ops input filt 0 (2*(C+2)) C 3
        (fun j => input (0 + j)) (fun j => input (0 + (C+2) + j))).stores ++
      (fconv2d_3x3_loop ops input filt C 3 R (4*1) ((4*1)*(C+2) + 2*(C+2))
        (filt 0) (filt 3) (filt 6)
        (fconv2d_vec_4xC_slice_move_3x3
          (fconv2d_vec_4xC_3x3 ops input filt 0 (2*(C+2)) C 3
            (fun j => input (0 + j)) (fun j => input (0 + (C+2) + j))).state)).stores := rfl
  rw [hsplit]
  have h16 : (fconv2d_vec_4xC_slice_move_3x3
      (fconv2d_vec_4xC_3x3 ops input filt 0 (2*(C+2)) C 3
        (fun j => input (0 + j)) (fun j => input (0 + (C+2) + j))).state).v16 =
      inrow input C (4*1) := by
    rw [slice_move_v16, fconv2d_vec_4xC_3x3_state_eq]
    exact row_shift input C (2*(C+2) + 2*(C+2)) (4*1) (by ring)
  have h18 : (fconv2d_vec_4xC_slice_move_3x3
      (fconv2d_vec_4xC_3x3 ops input filt 0 (2*(C+2)) C 3
        (fun j => input (0 + j)) (fun j => input (0 + (C+2) + j))).state).v18 =
      inrow input C (4*1 + 1) := by
    rw [slice_move_v18, fconv2d_vec_4xC_3x3_state_eq]
    exact row_shift input C (2*(C+2) + 3*(C+2)) (4*1 + 1) (by ring)
  rw [fconv2d_3x3_loop_stores_char ops input filt C m 1 R ((4*1)*(C+2) + 2*(C+2))
    _ (by omega) rfl h16 h18]
  rw [fconv2d_vec_4xC_3x3_stores_eq]
  rw [row_shift input C 0 0 (by ring),
    row_shift input C (0 + (C+2)) 1 (by ring),
    row_shift input C (2*(C+2)) 2 (by ring),
    row_shift input C (2*(C+2) + (C+2)) 3 (by ring),
    row_shift input C (2*(C+2) + 2*(C+2)) 4 (by ring),
    row_shift input C (2*(C+2) + 3*(C+2)) 5 (by ring)]
  rw [List.range_succ_eq_map, List.map_cons, List.flatten_cons, List.map_map]
  have hb0 : blockOf ops input filt C 0 = blockStores C 0
      (outRowW ops (filt 0) (filt 3) (filt 6) filt
        (inrow input C 0) (inrow input C 1) (inrow input C 2))
      (outRowW ops (filt 0) (filt 3) (filt 6) filt
        (inrow input C 1) (inrow input C 2) (inrow input C 3))
      (outRowW ops (filt 0) (filt 3) (filt 6) filt
        (inrow input C 2) (inrow input C 3) (inrow input C 4))
      (outRowW ops (filt 0) (filt 3) (filt 6) filt
        (inrow input C 3) (inrow input C 4) (inrow input C 5)) := by
    rw [blockOf]
    norm_num
  rw [hb0]
  have hfun : ((fun k => blockOf ops input filt C k) ∘ Nat.succ) =
      fun j => blockOf ops input filt C (1 + j) := by
    funext j
    show blockOf ops input filt C (Nat.succ j) = _
    congr 1
    omega
  rw [hfun]

/-- Store offsets of one row store. -/
lemma vse64_fst {A : Type} (b : ℕ) (v : ℕ → A) (w : ℕ) :
    (vse64 b v w).map Prod.fst = List.range' b w := by
  rw [vse64, List.map_map, List.range'_eq_map_range]
  rfl

/-- Store offsets of one block: 4C consecutive offsets from ob. -/
lemma blockStores_fst {A : Type} (C ob : ℕ) (w0 w1 w2 w3 : ℕ → A) :
    (blockStores C ob w0 w1 w2 w3).map Prod.fst = List.range' ob (4*C) := by
  rw [blockStores]
  simp only [List.map_append, vse64_fst]
  rw [List.append_assoc, List.append_assoc]
  rw [show ob + 2*C = (ob + C) + C by ring, show ob + 3*C = ((ob + C) + C) + C by ring]
  rw [range'_add_append ((ob + C) + C) C C]
  rw [range'_add_append (ob + C) C (C + C)]
  rw [range'_add_append ob C (C + (C + C))]
  congr 1
  ring

/-- Flattening m blocks of b consecutive offsets each. -/
lemma flatten_range'_blocks (b : ℕ) : ∀ (m : ℕ),
    ((List.range m).map (fun k => List.range' (b*k) b)).flatten = List.range' 0 (b*m) := by
  intro m
  induction m with
  | zero => simp
  | succ m IH =>
    rw [List.range_succ, List.map_append, List.flatten_append, IH]
    simp only [List.map_cons, List.map_nil, List.flatten_cons, List.flatten_nil,
      List.append_nil]
    have h2 := range'_add_append 0 (b*m) b
    rw [Nat.zero_add] at h2
    rw [h2]
    congr 1

/-- Store offsets of a full invocation: exactly the output offsets
0 .. R*C - 1, in increasing order. -/
lemma fconv2d_3x3_stores_fst {A : Type} (ops : FPOps A)
    (input filt : ℕ → A) (C R n : ℕ) (hR : R = 4*n) (hn : 1 ≤ n) :
    ((fconv2d_3x3 ops input filt R C 3).stores).map Prod.fst = List.range (R*C) := by
  rw [fconv2d_3x3_stores_char ops input filt C R n hR hn]
  rw [List.map_flatten, List.map_map]
  have hblk : (List.map Prod.fst ∘ fun k => blockOf ops input filt C k) =
      fun k => List.range' ((4*C)*k) (4*C) := by
    funext k
    show (blockOf ops input filt C k).map Prod.fst = _
    rw [blockOf, blockStores_fst]
    congr 1
    ring
  rw [hblk, flatten_range'_blocks (4*C) n, List.range_eq_range']
  congr 1
  rw [hR]
  ring

/-- Unfolding writeList over a cons. -/
lemma writeList_cons {A : Type} (m : ℕ → A) (p : ℕ × A) (t : List (ℕ × A)) :
    writeList m (p :: t) = writeList (fun a => if a = p.1 then p.2 else m a) t := rfl

/-- Offsets never stored keep their previous contents. -/
lemma writeList_not_mem {A : Type} :
    ∀ (l : List (ℕ × A)) (m : ℕ → A) (a : ℕ),
      a ∉ l.map Prod.fst → writeList m l a = m a := by
  intro l
  induction l with
  | nil => intro m a _; rfl
  | cons p t IH =>
    intro m a h
    rw [List.map_cons, List.mem_cons] at h
    push_neg at h
    rw [writeList_cons, IH _ a h.2]
    simp [h.1]

/-- When each offset is stored at most once, the final contents at a stored
offset is the stored value. -/
lemma writeList_mem_nodup {A : Type} :
    ∀ (l : List (ℕ × A)) (m : ℕ → A) (a : ℕ) (x : A),
      (a, x) ∈ l → (l.map Prod.fst).Nodup → writeList m l a = x := by
  intro l
  induction l with
  | nil => intro m a x h _; exact absurd h (List.not_mem_nil _)
  | cons p t IH =>
    intro m a x h hnd
    rw [List.map_cons, List.nodup_cons] at hnd
    rcases List.mem_cons.1 h with h1 | h1
    · rw [writeList_cons]
      rw [writeList_not_mem t _ a (by rw [← h1] at hnd; exact hnd.1)]
      rw [← h1]
      simp
    · exact IH _ a x h1 hnd.2

/-- Membership in a row store. -/
lemma mem_vse64 {A : Type} (b : ℕ) (v : ℕ → A) (w c : ℕ) (hc : c < w)
    (a : ℕ) (x : A) (ha : a = b + c) (hx : x = v c) : (a, x) ∈ vse64 b v w := by
  rw [vse64]
  exact List.mem_map.2 ⟨c, List.mem_range.2 hc, by rw [ha, hx]⟩

/-- The kernel's per-row accumulation normal form coincides with the
reference accumulation of the specification. -/
lemma outRowW_eq_refConv3 {A : Type} (ops : FPOps A) (filt input : ℕ → A)
    (C r c : ℕ) :
    outRowW ops (filt 0) (filt 3) (filt 6) filt
      (inrow input C r) (inrow input C (r+1)) (inrow input C (r+2)) c =
      refConv3 ops filt input C r c := rfl

/-- Claim C4: for every valid invocation (R = 4n a positive multiple of 4),
fconv2d_3x3 writes every element of the R x C output exactly once before
returning, in row-major order: the sequence of store offsets is exactly
0, 1, ..., R*C - 1 (within each block the accumulators v0, v2, v4, v6 are
stored top to bottom as contiguous C-element rows, and blocks are
processed in increasing row order). -/
theorem fconv2d_3x3_writes_row_major_once {A : Type} (ops : FPOps A)
    (input filt : ℕ → A) (C R n : ℕ) (hR : R = 4*n) (hn : 1 ≤ n) :
    ((fconv2d_3x3 ops input filt R C 3).stores).map Prod.fst =
      List.range (R*C) :=
  fconv2d_3x3_stores_fst ops input filt C R n hR hn

/-- Unfolding the loop iteration counter. -/
lemma fconv2d_3x3_loop_iters_eq (R r : ℕ) :
    fconv2d_3x3_loop_iters R r =
      if r < R then fconv2d_3x3_loop_iters R (r + 4) + 1 else 0 := by
  rw [fconv2d_3x3_loop_iters]

/-- Trip count of the driver loop from row counter r with bound r + 4m. -/
lemma fconv2d_3x3_loop_iters_exact :
    ∀ (m r : ℕ), fconv2d_3x3_loop_iters (r + 4*m) r = m := by
  intro m
  induction m with
  | zero =>
    intro r
    rw [fconv2d_3x3_loop_iters_eq, if_neg (by omega)]
  | succ m IH =>
    intro r
    rw [fconv2d_3x3_loop_iters_eq, if_pos (by omega)]
    have e : r + 4*(m+1) = (r + 4) + 4*m := by ring
    rw [e, IH (r + 4)]

/-- Claim C5: for R a positive multiple of 4 the driver terminates
unconditionally, entering the steady-state loop at r = 4 and executing its
(slide, compute) body exactly R/4 - 1 times before the row cursor reaches
R (the bootstrap preload and first block happen exactly once, before the
loop, by construction of fconv2d_3x3). -/
theorem fconv2d_3x3_loop_iteration_count (R n : ℕ) (hR : R = 4*n)
    (hn : 1 ≤ n) : fconv2d_3x3_loop_iters R 4 = R / 4 - 1 := by
  subst hR
  have e : 4*n = 4 + 4*(n - 1) := by omega
  rw [e, fconv2d_3x3_loop_iters_exact (n - 1) 4]
  omega

/-- Witness for the loop trip count at R = 12: two steady-state iterations. -/
theorem fconv2d_3x3_loop_iteration_count_witness :
    fconv2d_3x3_loop_iters 12 4 = 12 / 4 - 1 :=
  fconv2d_3x3_loop_iteration_count 12 3 (by decide) (by decide)

/-- Claim C2: at the start of processing output-row block k the row window
holds exactly input rows 4k .. 4k+5: after the block-k loads complete, the
register file is v8 = row 4k, v10 = row 4k+1, v12..v18 = rows 4k+2..4k+5.
For k = 0 the first two rows come from the one-time bootstrap preload; for
k >= 1 they come from the slide that promoted v16, v18 (rows 4(k-1)+4 and
4(k-1)+5 of the outgoing window) into the first two slots. -/
theorem fconv2d_3x3_window_invariant {A : Type} (ops : FPOps A)
    (input filt : ℕ → A) (C : ℕ) :
    ∀ k, fconv2d_3x3_stateAfterBlock ops input filt C k =
      { v8 := inrow input C (4*k), v10 := inrow input C (4*k+1)
        v12 := inrow input C (4*k+2), v14 := inrow input C (4*k+3)
        v16 := inrow input C (4*k+4), v18 := inrow input C (4*k+5) } := by
  intro k
  induction k with
  | zero =>
    show (fconv2d_vec_4xC_3x3 ops input filt 0 (2*(C+2)) C 3
      (fconv2d_vec_4xC_slice_preload_3x3 input 0 C 3).v8
      (fconv2d_vec_4xC_slice_preload_3x3 input 0 C 3).v10).state = _
    rw [fconv2d_vec_4xC_3x3_state_eq]
    have hv8 : (fconv2d_vec_4xC_slice_preload_3x3 input 0 C 3).v8 =
        inrow input C (4*0) := row_shift input C 0 (4*0) (by ring)
    have hv10 : (fconv2d_vec_4xC_slice_preload_3x3 input 0 C 3).v10 =
        inrow input C (4*0+1) := row_shift input C (0 + (C+2)) (4*0+1) (by ring)
    rw [hv8, hv10,
      row_shift input C (2*(C+2)) (4*0+2) (by ring),
      row_shift input C (2*(C+2) + (C+2)) (4*0+3) (by ring),
      row_shift input C (2*(C+2) + 2*(C+2)) (4*0+4) (by ring),
      row_shift input C (2*(C+2) + 3*(C+2)) (4*0+5) (by ring)]
  | succ k IH =>
    show (fconv2d_3x3_loop_body ops input filt C 3 (4*(k+1))
      ((4*(k+1))*(C+2) + 2*(C+2)) (filt 0) (filt 3) (filt (2*3))
      (fconv2d_3x3_stateAfterBlock ops input filt C k)).state = _
    have h16 : (fconv2d_3x3_stateAfterBlock ops input filt C k).v16 =
        inrow input C (4*(k+1)) := by
      rw [IH]
      show inrow input C (4*k+4) = _
      congr 1
    have h18 : (fconv2d_3x3_stateAfterBlock ops input filt C k).v18 =
        inrow input C (4*(k+1)+1) := by
      rw [IH]
      show inrow input C (4*k+5) = _
      congr 1
    rw [fconv2d_3x3_loop_body_state_eq, h16, h18,
      row_shift input C ((4*(k+1))*(C+2) + 2*(C+2)) (4*(k+1)+2) (by ring),
      row_shift input C ((4*(k+1))*(C+2) + 2*(C+2) + (C+2)) (4*(k+1)+3) (by ring),
      row_shift input C ((4*(k+1))*(C+2) + 2*(C+2) + 2*(C+2)) (4*(k+1)+4) (by ring),
      row_shift input C ((4*(k+1))*(C+2) + 2*(C+2) + 3*(C+2)) (4*(k+1)+5) (by ring)]

/-- Claim C1: for every valid invocation (F = 3, R = 4n a positive multiple
of 4, C >= 1 implied by c < C, padded input with row stride C + 2) and any
prior contents o of the output buffer, the final contents of output
element (r, c) after applying the kernel's store trace equals the
specification's reference value refConv3: the sum of filter[i][j] times
input[r+i][c+j] accumulated in filter-column-major order (j outer, i
inner).  The equality is between terms built from the same abstract
multiply / multiply-accumulate operations applied in the same order, so it
is bit-for-bit under the IEEE binary64 interpretation. -/
theorem fconv2d_3x3_output_matches_reference {A : Type} (ops : FPOps A)
    (input filt o : ℕ → A) (C R n r c : ℕ) (hR : R = 4*n) (hn : 1 ≤ n)
    (hr : r < R) (hc : c < C) :
    writeList o (fconv2d_3x3 ops input filt R C 3).stores (r*C + c) =
      refConv3 ops filt input C r c := by
  have hnd : (((fconv2d_3x3 ops input filt R C 3).stores).map Prod.fst).Nodup := by
    rw [fconv2d_3x3_stores_fst ops input filt C R n hR hn]
    exact List.nodup_range _
  have hmem : (r*C + c, refConv3 ops filt input C r c) ∈
      (fconv2d_3x3 ops input filt R C 3).stores := by
    obtain ⟨k, q, hq4, rfl⟩ : ∃ k q, q < 4 ∧ r = 4*k + q :=
      ⟨r/4, r%4, by omega, by omega⟩
    rw [fconv2d_3x3_stores_char ops input filt C R n hR hn, List.mem_flatten]
    refine ⟨blockOf ops input filt C k,
      List.mem_map.2 ⟨k, List.mem_range.2 (by omega), rfl⟩, ?_⟩
    rw [blockOf, blockStores]
    interval_cases q
    · exact List.mem_append.2 (Or.inl (List.mem_append.2 (Or.inl
        (List.mem_append.2 (Or.inl (mem_vse64 _ _ C c hc _ _ (by ring)
          (outRowW_eq_refConv3 ops filt input C (4*k) c).symm))))))
    · exact List.mem_append.2 (Or.inl (List.mem_append.2 (Or.inl
        (List.mem_append.2 (Or.inr (mem_vse64 _ _ C c hc _ _ (by ring)
          (outRowW_eq_refConv3 ops filt input C (4*k + 1) c).symm))))))
    · exact List.mem_append.2 (Or.inl (List.mem_append.2 (Or.inr
        (mem_vse64 _ _ C c hc _ _ (by ring)
          (outRowW_eq_refConv3 ops filt input C (4*k + 2) c).symm))))
    · exact List.mem_append.2 (Or.inr (mem_vse64 _ _ C c hc _ _ (by ring)
        (outRowW_eq_refConv3 ops filt input C (4*k + 3) c).symm))
  exact writeList_mem_nodup _ o _ _ hmem hnd

/-- Claim C8: in the smallest valid case R = 4, C = 1, F = 3 on a 6 x 3
padded input, the kernel produces exactly a 4 x 1 output: the steady-state
loop executes zero iterations, and the four store events, all from the
bootstrap block, carry the reference convolution values at rows 0..3,
column 0. -/
theorem fconv2d_3x3_smallest_case {A : Type} (ops : FPOps A)
    (input filt : ℕ → A) :
    (fconv2d_3x3 ops input filt 4 1 3).stores =
      [(0, refConv3 ops filt input 1 0 0), (1, refConv3 ops filt input 1 1 0),
       (2, refConv3 ops filt input 1 2 0), (3, refConv3 ops filt input 1 3 0)] ∧
    fconv2d_3x3_loop_iters 4 4 = 0 := by
  constructor
  · have hsplit : (fconv2d_3x3 ops input filt 4 1 3).stores =
        (fconv2d_vec_4xC_3x3 ops input filt 0 6 1 3
          (fun j => input (0 + j)) (fun j => input (0 + 3 + j))).stores ++
        (fconv2d_3x3_loop ops input filt 1 3 4 4 18
          (filt 0) (filt 3) (filt 6)
          (fconv2d_vec_4xC_slice_move_3x3
            (fconv2d_vec_4xC_3x3 ops input filt 0 6 1 3
              (fun j => input (0 + j)) (fun j => input (0 + 3 + j))).state)).stores := rfl
    rw [hsplit,
      fconv2d_3x3_loop_unfold_neg _ _ _ _ _ _ _ _ _ _ _ _ (by omega)]
    rfl
  · rw [fconv2d_3x3_loop_iters_eq, if_neg (by omega)]

/-- Scaling every filter coefficient commutes with one output-row
accumulation, given that the scaling operator s commutes with the two
machine primitives on their scalar operand. -/
lemma outRowW_scale_filt {A : Type} (ops : FPOps A) (s : A → A)
    (hmul : ∀ t x, s (ops.fmul t x) = ops.fmul (s t) x)
    (hmacc : ∀ t x a, s (ops.fmacc t x a) = ops.fmacc (s t) x (s a))
    (t0 t1 t2 : A) (filt : ℕ → A) (r0 r1 r2 : ℕ → A) (c : ℕ) :
    s (outRowW ops t0 t1 t2 filt r0 r1 r2 c) =
      outRowW ops (s t0) (s t1) (s t2) (fun j => s (filt j)) r0 r1 r2 c := by
  rw [outRowW, outRowW]
  rw [hmacc, hmacc, hmacc, hmacc, hmacc, hmacc, hmacc, hmacc, hmul]

/-- Scaling every input element commutes with one output-row accumulation,
given that the scaling operator s commutes with the two machine primitives
on their vector operand. -/
lemma outRowW_scale_input {A : Type} (ops : FPOps A) (s : A → A)
    (hmul : ∀ t x, s (ops.fmul t x) = ops.fmul t (s x))
    (hmacc : ∀ t x a, s (ops.fmacc t x a) = ops.fmacc t (s x) (s a))
    (t0 t1 t2 : A) (filt : ℕ → A) (r0 r1 r2 : ℕ → A) (c : ℕ) :
    s (outRowW ops t0 t1 t2 filt r0 r1 r2 c) =
      outRowW ops t0 t1 t2 filt
        (fun j => s (r0 j)) (fun j => s (r1 j)) (fun j => s (r2 j)) c := by
  rw [outRowW, outRowW]
  rw [hmacc, hmacc, hmacc, hmacc, hmacc, hmacc, hmacc, hmacc, hmul]

/-- Scaling the stored values of one row store. -/
lemma vse64_map_snd {A : Type} (s : A → A) (b : ℕ) (v : ℕ → A) (w : ℕ) :
    (vse64 b v w).map (fun p => (p.1, s p.2)) = vse64 b (fun j => s (v j)) w := by
  rw [vse64, vse64, List.map_map]
  rfl

/-- Scaling the stored values of one block. -/
lemma blockStores_map_snd {A : Type} (s : A → A) (C ob : ℕ)
    (w0 w1 w2 w3 : ℕ → A) :
    (blockStores C ob w0 w1 w2 w3).map (fun p => (p.1, s p.2)) =
      blockStores C ob (fun c => s (w0 c)) (fun c => s (w1 c))
        (fun c => s (w2 c)) (fun c => s (w3 c)) := by
  rw [blockStores, blockStores]
  simp only [List.map_append, vse64_map_snd]

/-- Claim C6: for a scaling operator s that commutes exactly with the two
machine primitives (for IEEE binary64 this is multiplication by a power of
two k, absent overflow and underflow, exactly the scale factors the
specification singles out as exact), replacing every filter element
filt j by s (filt j) scales every stored output value by s, and likewise
replacing every input element by its scaled value scales every stored
output value by s; the store offsets are unchanged. -/
theorem fconv2d_3x3_scaling_linearity {A : Type} (ops : FPOps A) (s : A → A)
    (input filt : ℕ → A) (C R n : ℕ) (hR : R = 4*n) (hn : 1 ≤ n)
    (hmulL : ∀ t x, s (ops.fmul t x) = ops.fmul (s t) x)
    (hmaccL : ∀ t x a, s (ops.fmacc t x a) = ops.fmacc (s t) x (s a))
    (hmulR : ∀ t x, s (ops.fmul t x) = ops.fmul t (s x))
    (hmaccR : ∀ t x a, s (ops.fmacc t x a) = ops.fmacc t (s x) (s a)) :
    (fconv2d_3x3 ops input (fun j => s (filt j)) R C 3).stores =
      ((fconv2d_3x3 ops input filt R C 3).stores).map (fun p => (p.1, s p.2)) ∧
    (fconv2d_3x3 ops (fun a => s (input a)) filt R C 3).stores =
      ((fconv2d_3x3 ops input filt R C 3).stores).map (fun p => (p.1, s p.2)) := by
  constructor
  · rw [fconv2d_3x3_stores_char ops input (fun j => s (filt j)) C R n hR hn,
      fconv2d_3x3_stores_char ops input filt C R n hR hn]
    rw [List.map_flatten, List.map_map]
    congr 1
    apply List.map_congr_left
    intro k _
    show blockOf ops input (fun j => s (filt j)) C k =
      (blockOf ops input filt C k).map (fun p => (p.1, s p.2))
    rw [blockOf, blockOf, blockStores_map_snd]
    congr 1 <;> try {funext c; rw [outRowW_scale_filt ops s hmulL hmaccL]}
  · rw [fconv2d_3x3_stores_char ops (fun a => s (input a)) filt C R n hR hn,
      fconv2d_3x3_stores_char ops input filt C R n hR hn]
    rw [List.map_flatten, List.map_map]
    congr 1
    apply List.map_congr_left
    intro k _
    show blockOf ops (fun a => s (input a)) filt C k =
      (blockOf ops input filt C k).map (fun p => (p.1, s p.2))
    rw [blockOf, blockOf, blockStores_map_snd]
    congr 1 <;> (funext c; rw [outRowW_scale_input ops s hmulR hmaccR]; rfl)

/-- Address bound for a row access: row t, lane j. -/
lemma inrow_addr_lt (t j C B : ℕ) (ht : t ≤ B) (hj : j < C+2) :
    t*(C+2) + j < (B+1)*(C+2) := by
  calc t*(C+2) + j < t*(C+2) + (C+2) := by omega
  _ ≤ B*(C+2) + (C+2) := by
      have := Nat.mul_le_mul_right (C+2) ht
      omega
  _ = (B+1)*(C+2) := by ring

/-- Row stores agree when the stored lanes agree. -/
lemma vse64_congr {A : Type} (b w : ℕ) (v v' : ℕ → A)
    (h : ∀ j, j < w → v j = v' j) : vse64 b v w = vse64 b v' w := by
  rw [vse64, vse64]
  apply List.map_congr_left
  intro j hj
  rw [h j (List.mem_range.1 hj)]

/-- One output-row accumulation depends only on the filter elements (nine
offsets) and on lanes c, c+1, c+2 of its three window rows. -/
lemma outRowW_congr {A : Type} (ops : FPOps A) (t0 t1 t2 : A)
    (filt filt' : ℕ → A) (r0 r1 r2 r0' r1' r2' : ℕ → A) (c : ℕ)
    (hfil : ∀ a, a < 9 → filt a = filt' a)
    (h0 : ∀ j, j ≤ c + 2 → r0 j = r0' j)
    (h1 : ∀ j, j ≤ c + 2 → r1 j = r1' j)
    (h2 : ∀ j, j ≤ c + 2 → r2 j = r2' j) :
    outRowW ops t0 t1 t2 filt r0 r1 r2 c =
      outRowW ops t0 t1 t2 filt' r0' r1' r2' c := by
  rw [outRowW, outRowW]
  rw [hfil 1 (by omega), hfil 2 (by omega), hfil 4 (by omega),
    hfil 5 (by omega), hfil 7 (by omega), hfil 8 (by omega),
    h0 c (by omega), h0 (c+1) (by omega), h0 (c+2) (by omega),
    h1 c (by omega), h1 (c+1) (by omega), h1 (c+2) (by omega),
    h2 c (by omega), h2 (c+1) (by omega), h2 (c+2) (by omega)]

/-- A block's stores depend only on the nine filter elements and on input
rows 4k .. 4k+5, i.e. on input offsets below (4k+6)(C+2). -/
lemma blockOf_congr {A : Type} (ops : FPOps A)
    (input input' filt filt' : ℕ → A) (C k : ℕ)
    (hin : ∀ a, a < (4*k+6)*(C+2) → input a = input' a)
    (hfil : ∀ a, a < 9 → filt a = filt' a) :
    blockOf ops input filt C k = blockOf ops input' filt' C k := by
  have hrow : ∀ t, t ≤ 4*k+5 → ∀ j, j < C+2 →
      inrow input C t j = inrow input' C t j := by
    intro t ht j hj
    rw [inrow, inrow]
    exact hin _ (inrow_addr_lt t j C (4*k+5) ht hj)
  rw [blockOf, blockOf, hfil 0 (by omega), hfil 3 (by omega), hfil 6 (by omega)]
  rw [blockStores, blockStores]
  have hseg : ∀ (d0 d1 d2 : ℕ) (hd0 : d0 ≤ 4*k+5) (hd1 : d1 ≤ 4*k+5)
      (hd2 : d2 ≤ 4*k+5) (b : ℕ),
      vse64 b (outRowW ops (filt' 0) (filt' 3) (filt' 6) filt
        (inrow input C d0) (inrow input C d1) (inrow input C d2)) C =
      vse64 b (outRowW ops (filt' 0) (filt' 3) (filt' 6) filt'
        (inrow input' C d0) (inrow input' C d1) (inrow input' C d2)) C := by
    intro d0 d1 d2 hd0 hd1 hd2 b
    apply vse64_congr
    intro c hc
    apply outRowW_congr
    · exact hfil
    · intro j hj; exact hrow d0 hd0 j (by omega)
    · intro j hj; exact hrow d1 hd1 j (by omega)
    · intro j hj; exact hrow d2 hd2 j (by omega)
  rw [hseg (4*k) (4*k+1) (4*k+2) (by omega) (by omega) (by omega),
    hseg (4*k+1) (4*k+2) (4*k+3) (by omega) (by omega) (by omega),
    hseg (4*k+2) (4*k+3) (4*k+4) (by omega) (by omega) (by omega),
    hseg (4*k+3) (4*k+4) (4*k+5) (by omega) (by omega) (by omega)]

/-- Claim C9: fconv2d_3x3 is deterministic, and a noninterference form of
it: two invocations whose input buffers agree on all (R+2)(C+2) declared
input elements and whose filter buffers agree on all 9 filter elements
produce identical (bit-identical, since every theorem here is modulo the
same abstract primitives) store traces, regardless of any other state. -/
theorem fconv2d_3x3_deterministic {A : Type} (ops : FPOps A)
    (input1 input2 filt1 filt2 : ℕ → A) (C R n : ℕ)
    (hR : R = 4*n) (hn : 1 ≤ n)
    (hin : ∀ a, a < (R+2)*(C+2) → input1 a = input2 a)
    (hf : ∀ a, a < 9 → filt1 a = filt2 a) :
    (fconv2d_3x3 ops input1 filt1 R C 3).stores =
      (fconv2d_3x3 ops input2 filt2 R C 3).stores := by
  rw [fconv2d_3x3_stores_char ops input1 filt1 C R n hR hn,
    fconv2d_3x3_stores_char ops input2 filt2 C R n hR hn]
  congr 1
  apply List.map_congr_left
  intro k hk
  apply blockOf_congr
  · intro a ha
    apply hin
    have hk' : k < n := List.mem_range.1 hk
    have hmono : (4*k+6)*(C+2) ≤ (R+2)*(C+2) :=
      Nat.mul_le_mul_right (C+2) (by omega)
    omega
  · exact hf

/-- Filter read footprint of the steady-state loop body stays below 9. -/
lemma fconv2d_3x3_loop_body_fReads_eq {A : Type} (ops : FPOps A)
    (input filt : ℕ → A) (C r ib : ℕ) (t0 t1 t2 : A) (st : RegState A) :
    (fconv2d_3x3_loop_body ops input filt C 3 r ib t0 t1 t2 st).fReads =
      [1, 4, 7, 2, 5, 8] := rfl

/-- All input offsets read by the steady-state loop entered for block k
with R = 4(k+m) stay below (R+2)(C+2), and all filter offsets it reads
stay below 9. -/
lemma fconv2d_3x3_loop_reads_bound {A : Type} (ops : FPOps A)
    (input filt : ℕ → A) (C : ℕ) :
    ∀ (m k R ib : ℕ) (t0 t1 t2 : A) (st : RegState A),
      R = 4*(k + m) →
      ib = (4*k)*(C+2) + 2*(C+2) →
      (∀ a ∈ (fconv2d_3x3_loop ops input filt C 3 R (4*k) ib
          t0 t1 t2 st).iReads, a < (R+2)*(C+2)) ∧
      (∀ a ∈ (fconv2d_3x3_loop ops input filt C 3 R (4*k) ib
          t0 t1 t2 st).fReads, a < 9) := by
  intro m
  induction m with
  | zero =>
    intro k R ib t0 t1 t2 st hR hib
    rw [fconv2d_3x3_loop_unfold_neg _ _ _ _ _ _ _ _ _ _ _ _ (by omega)]
    constructor <;> {intro a ha; exact absurd ha (List.not_mem_nil _)}
  | succ m IH =>
    intro k R ib t0 t1 t2 st hR hib
    rw [fconv2d_3x3_loop_unfold_pos _ _ _ _ _ _ _ _ _ _ _ _ (by omega)]
    have e2 : (4*k + 4)*(C + 3 - 1) + (3 - 1)*(C + 3 - 1) =
        (4*(k+1))*(C+2) + 2*(C+2) := rfl
    have e1 : 4*k + 4 = 4*(k+1) := by ring
    rw [e2, e1]
    have hrest := IH (k+1) R ((4*(k+1))*(C+2) + 2*(C+2)) t0 t1 t2
      (fconv2d_3x3_loop_body ops input filt C 3 (4*k) ib t0 t1 t2 st).state
      (by omega) rfl
    have hmax : ib + 4*(C+2) ≤ (R+2)*(C+2) := by
      have hx : ib + 4*(C+2) = (4*k+6)*(C+2) := by rw [hib]; ring
      have hy : (4*k+6)*(C+2) ≤ (R+2)*(C+2) :=
        Nat.mul_le_mul_right (C+2) (by omega)
      omega
    constructor
    · intro a ha
      show a < (R+2)*(C+2)
      rcases List.mem_append.1 ha with hb | hb
      · rw [fconv2d_3x3_loop_body_iReads_eq] at hb
        simp only [List.mem_append, List.mem_range'_1] at hb
        omega
      · exact hrest.1 a hb
    · intro a ha
      rcases List.mem_append.1 ha with hb | hb
      · rw [fconv2d_3x3_loop_body_fReads_eq] at hb
        simp only [List.mem_cons, List.not_mem_nil, or_false] at hb
        omega
      · exact hrest.2 a hb

/-- Claim C10: under the stated preconditions (F = 3, R = 4n a positive
multiple of 4, C >= 1, buffers of the declared sizes), every memory access
of fconv2d_3x3 and its helpers is in bounds: input reads touch only
offsets below (R+2)(C+2), filter reads only offsets below 9, and output
stores only offsets below R*C.  (The shifted-row accesses are in-register
vslidedown permutations, not memory reads; the memory footprint per row is
exactly the C+2 elements loaded by vle64, of which a stored lane c
consumes at most lane c+2 <= C+1.) -/
theorem fconv2d_3x3_memory_safety {A : Type} (ops : FPOps A)
    (input filt : ℕ → A) (C R n : ℕ) (hR : R = 4*n) (hn : 1 ≤ n)
    (hC : 1 ≤ C) :
    (∀ a ∈ (fconv2d_3x3 ops input filt R C 3).iReads, a < (R+2)*(C+2)) ∧
    (∀ a ∈ (fconv2d_3x3 ops input filt R C 3).fReads, a < 9) ∧
    (∀ p ∈ (fconv2d_3x3 ops input filt R C 3).stores, p.1 < R*C) := by
  have hsplit_i : (fconv2d_3x3 ops input filt R C 3).iReads =
      (List.range' 0 (C+2) ++ List.range' (0 + (C+2)) (C+2)) ++
      (fconv2d_vec_4xC_3x3 ops input filt 0 (2*(C+2)) C 3
        (fun j => input (0 + j)) (fun j => input (0 + (C+2) + j))).iReads ++
      (fconv2d_3x3_loop ops input filt C 3 R (4*1) ((4*1)*(C+2) + 2*(C+2))
        (filt 0) (filt 3) (filt 6)
        (fconv2d_vec_4xC_slice_move_3x3
          (fconv2d_vec_4xC_3x3 ops input filt 0 (2*(C+2)) C 3
            (fun j => input (0 + j)) (fun j => input (0 + (C+2) + j))).state)).iReads := rfl
  have hsplit_f : (fconv2d_3x3 ops input filt R C 3).fReads =
      [0, 3, 6, 1, 4, 7, 2, 5, 8] ++ [0, 3, 6] ++
      (fconv2d_3x3_loop ops input filt C 3 R (4*1) ((4*1)*(C+2) + 2*(C+2))
        (filt 0) (filt 3) (filt 6)
        (fconv2d_vec_4xC_slice_move_3x3
          (fconv2d_vec_4xC_3x3 ops input filt 0 (2*(C+2)) C 3
            (fun j => input (0 + j)) (fun j => input (0 + (C+2) + j))).state)).fReads := rfl
  have hloop := fconv2d_3x3_loop_reads_bound ops input filt C (n-1) 1 R
    ((4*1)*(C+2) + 2*(C+2)) (filt 0) (filt 3) (filt 6)
    (fconv2d_vec_4xC_slice_move_3x3
      (fconv2d_vec_4xC_3x3 ops input filt 0 (2*(C+2)) C 3
        (fun j => input (0 + j)) (fun j => input (0 + (C+2) + j))).state)
    (by omega) rfl
  have hRC : 6*(C+2) ≤ (R+2)*(C+2) := Nat.mul_le_mul_right (C+2) (by omega)
  refine ⟨?_, ?_, ?_⟩
  · intro a ha
    rw [hsplit_i] at ha
    rcases List.mem_append.1 ha with hb | hb
    · rcases List.mem_append.1 hb with hc | hc
      · simp only [List.mem_append, List.mem_range'_1] at hc
        omega
      · rw [fconv2d_vec_4xC_3x3_iReads_eq] at hc
        simp only [List.mem_append, List.mem_range'_1] at hc
        omega
    · exact hloop.1 a hb
  · intro a ha
    rw [hsplit_f] at ha
    rcases List.mem_append.1 ha with hb | hb
    · simp only [List.mem_append, List.mem_cons, List.not_mem_nil, or_false] at hb
      omega
    · exact hloop.2 a hb
  · intro p hp
    have hfst : p.1 ∈ ((fconv2d_3x3 ops input filt R C 3).stores).map Prod.fst :=
      List.mem_map_of_mem Prod.fst hp
    rw [fconv2d_3x3_stores_fst ops input filt C R n hR hn] at hfst
    exact List.mem_range.1 hfst

/-- Claim C7: fconv2d_3x3 leaves the input and the filter buffers
unchanged.  Place the three buffers in one memory m at bases oB (output,
R*C elements), iB (input, (R+2)(C+2) elements) and fB (filter, 9
elements); the kernel reads the input and filter through those views and
its store trace, relocated to the output base, is the only mutation.
Provided the output region does not overlap the input or filter regions
(the caller's no-aliasing precondition), the final memory agrees with the
initial memory on every input-buffer offset and every filter-buffer
offset. -/
theorem fconv2d_3x3_frame {A : Type} (ops : FPOps A) (m : ℕ → A)
    (oB iB fB C R n : ℕ) (hR : R = 4*n) (hn : 1 ≤ n)
    (hdi : ∀ a, a < R*C → ¬ (iB ≤ oB + a ∧ oB + a < iB + (R+2)*(C+2)))
    (hdf : ∀ a, a < R*C → ¬ (fB ≤ oB + a ∧ oB + a < fB + 9)) :
    (∀ b, iB ≤ b → b < iB + (R+2)*(C+2) →
      writeList m
        (((fconv2d_3x3 ops (fun j => m (iB + j)) (fun j => m (fB + j))
            R C 3).stores).map (fun p => (oB + p.1, p.2))) b = m b) ∧
    (∀ b, fB ≤ b → b < fB + 9 →
      writeList m
        (((fconv2d_3x3 ops (fun j => m (iB + j)) (fun j => m (fB + j))
            R C 3).stores).map (fun p => (oB + p.1, p.2))) b = m b) := by
  have haddr : ((((fconv2d_3x3 ops (fun j => m (iB + j)) (fun j => m (fB + j))
      R C 3).stores).map (fun p => (oB + p.1, p.2))).map Prod.fst) =
      (List.range (R*C)).map (fun a => oB + a) := by
    rw [List.map_map]
    have : ((fconv2d_3x3 ops (fun j => m (iB + j)) (fun j => m (fB + j))
        R C 3).stores).map (Prod.fst ∘ fun p => (oB + p.1, p.2)) =
        (((fconv2d_3x3 ops (fun j => m (iB + j)) (fun j => m (fB + j))
          R C 3).stores).map Prod.fst).map (fun a => oB + a) := by
      rw [List.map_map]
      rfl
    rw [this, fconv2d_3x3_stores_fst ops _ _ C R n hR hn]
  constructor
  · intro b hb1 hb2
    apply writeList_not_mem
    rw [haddr]
    intro hmem
    obtain ⟨a, ha, hba⟩ := List.mem_map.1 hmem
    exact hdi a (List.mem_range.1 ha) (by omega)
  · intro b hb1 hb2
    apply writeList_not_mem
    rw [haddr]
    intro hmem
    obtain ⟨a, ha, hba⟩ := List.mem_map.1 hmem
    exact hdf a (List.mem_range.1 ha) (by omega)

/-- Integer interpretation of the machine primitives, used to evaluate the
theorems at concrete inputs. -/
def intOps : FPOps ℤ := { fmul := fun t x => t * x, fmacc := fun t x a => t * x + a }

/-- Concrete input buffer for evaluation. -/
def wInput : ℕ → ℤ := fun a => (a : ℤ)

/-- Concrete input buffer agreeing with wInput on the first 18 elements
(the declared input size for R = 4, C = 1) and differing beyond them. -/
def wInputB : ℕ → ℤ := fun a => if a < 18 then (a : ℤ) else 9

/-- Concrete filter buffer for evaluation. -/
def wFilt : ℕ → ℤ := fun a => (a : ℤ) + 1

/-- Concrete filter buffer agreeing with wFilt on the 9 filter elements
and differing beyond them. -/
def wFiltB : ℕ → ℤ := fun a => if a < 9 then (a : ℤ) + 1 else 5

/-- Concrete initial output contents for evaluation. -/
def wZero : ℕ → ℤ := fun _ => 0

/-- Witness for claim C1 at R = 4, C = 1, output element (2, 0). -/
theorem fconv2d_3x3_output_matches_reference_witness :
    writeList wZero (fconv2d_3x3 intOps wInput wFilt 4 1 3).stores (2*1 + 0) =
      refConv3 intOps wFilt wInput 1 2 0 :=
  fconv2d_3x3_output_matches_reference intOps wInput wFilt wZero 1 4 1 2 0
    (by decide) (by decide) (by decide) (by decide)

/-- Witness for claim C4 at R = 8, C = 2. -/
theorem fconv2d_3x3_writes_row_major_once_witness :
    ((fconv2d_3x3 intOps wInput wFilt 8 2 3).stores).map Prod.fst =
      List.range (8*2) :=
  fconv2d_3x3_writes_row_major_once intOps wInput wFilt 2 8 2
    (by decide) (by decide)

/-- Witness for claim C6 at R = 4, C = 1 with the scaling s x = 2x. -/
theorem fconv2d_3x3_scaling_linearity_witness :
    (fconv2d_3x3 intOps wInput (fun j => 2 * wFilt j) 4 1 3).stores =
      ((fconv2d_3x3 intOps wInput wFilt 4 1 3).stores).map
        (fun p => (p.1, 2 * p.2)) ∧
    (fconv2d_3x3 intOps (fun a => 2 * wInput a) wFilt 4 1 3).stores =
      ((fconv2d_3x3 intOps wInput wFilt 4 1 3).stores).map
        (fun p => (p.1, 2 * p.2)) :=
  fconv2d_3x3_scaling_linearity intOps (fun x => 2 * x) wInput wFilt 1 4 1
    (by decide) (by decide)
    (fun t x => by show 2*(t*x) = (2*t)*x; ring)
    (fun t x a => by show 2*(t*x + a) = (2*t)*x + 2*a; ring)
    (fun t x => by show 2*(t*x) = t*(2*x); ring)
    (fun t x a => by show 2*(t*x + a) = t*(2*x) + 2*a; ring)

/-- Witness for claim C7 at R = 4, C = 1 with output at base 0, input at
base 4, filter at base 22. -/
theorem fconv2d_3x3_frame_witness :
    (∀ b, 4 ≤ b → b < 4 + (4+2)*(1+2) →
      writeList wInput
        (((fconv2d_3x3 intOps (fun j => wInput (4 + j)) (fun j => wInput (22 + j))
            4 1 3).stores).map (fun p => (0 + p.1, p.2))) b = wInput b) ∧
    (∀ b, 22 ≤ b → b < 22 + 9 →
      writeList wInput
        (((fconv2d_3x3 intOps (fun j => wInput (4 + j)) (fun j => wInput (22 + j))
            4 1 3).stores).map (fun p => (0 + p.1, p.2))) b = wInput b) :=
  fconv2d_3x3_frame intOps wInput 0 4 22 1 4 1 (by decide) (by decide)
    (by decide) (by decide)

/-- Witness for claim C9 at R = 4, C = 1: the two input buffers agree on
the 18 declared elements and differ beyond, the two filter buffers agree
on the 9 declared elements and differ beyond. -/
theorem fconv2d_3x3_deterministic_witness :
    (fconv2d_3x3 intOps wInput wFilt 4 1 3).stores =
      (fconv2d_3x3 intOps wInputB wFiltB 4 1 3).stores :=
  fconv2d_3x3_deterministic intOps wInput wInputB wFilt wFiltB 1 4 1
    (by decide) (by decide)
    (by decide)
    (by decide)

/-- Witness for claim C10 at R = 4, C = 1. -/
theorem fconv2d_3x3_memory_safety_witness :
    (∀ a ∈ (fconv2d_3x3 intOps wInput wFilt 4 1 3).iReads, a < (4+2)*(1+2)) ∧
    (∀ a ∈ (fconv2d_3x3 intOps wInput wFilt 4 1 3).fReads, a < 9) ∧
    (∀ p ∈ (fconv2d_3x3 intOps wInput wFilt 4 1 3).stores, p.1 < 4*1) :=
  fconv2d_3x3_memory_safety intOps wInput wFilt 1 4 1
    (by decide) (by decide) (by decide)
